import Mathlib

/-!
Verification of the frontmatter codec, atomic file writer, CLI error
mapping and `gh` argument construction of the `ghi` issue-sync tool.

Go strings and byte slices are modelled as `List Char` (`Str`); the Go
standard-library helpers used by the source (`strings.Split` on "\n",
`strings.Join` with "\n", `strings.TrimSpace`) are embedded as structurally
recursive functions on `Str` with the same semantics.
-/

/-- Go strings / byte slices are modelled as lists of characters. -/
abbrev Str := List Char

/-- Convenience conversion from a Lean string literal to the model type. -/
def str (s : String) : Str := s.data

/-- Whitespace set of Go's `unicode.IsSpace` as used by `strings.TrimSpace`:
the Latin-1 range (space, tab, newline, vertical tab, form feed, carriage
return, NEL, NBSP) plus the White_Space runes outside Latin-1 (OGHAM SPACE
MARK, the EN QUAD .. HAIR SPACE block, LINE and PARAGRAPH SEPARATOR,
NARROW NO-BREAK SPACE, MEDIUM MATHEMATICAL SPACE, IDEOGRAPHIC SPACE). -/
def isGoSpace (c : Char) : Bool :=
  c = ' ' || c = '\t' || c = '\n' || c = '\x0b' || c = '\x0c' || c = '\r' ||
  c = '\x85' || c = '\xa0' || c = '\u1680' ||
  ('\u2000' <= c && c <= '\u200a') || c = '\u2028' || c = '\u2029' ||
  c = '\u202f' || c = '\u205f' || c = '\u3000'

/-- Model of `strings.Split(s, "\n")`: split at every newline, keeping
empty fields; always returns at least one element. -/
def splitOnNL : Str → List Str
  | [] => [[]]
  | c :: cs =>
    if c = '\n' then [] :: splitOnNL cs
    else
      match splitOnNL cs with
      | [] => [[c]]
      | l :: ls => (c :: l) :: ls

/-- Model of `strings.Join(ls, "\n")`. -/
def joinNL : List Str → Str
  | [] => []
  | [l] => l
  | l :: l2 :: ls => l ++ '\n' :: joinNL (l2 :: ls)

/-- Right half of `strings.TrimSpace`: drop trailing whitespace. -/
def trimRight (s : Str) : Str := (s.reverse.dropWhile isGoSpace).reverse

/-- Model of `strings.TrimSpace`. -/
def trimSpace (s : Str) : Str := trimRight (s.dropWhile isGoSpace)

/-- The frontmatter delimiter token from `md.go`. -/
def delim : Str := str "---"

/-- Model of `model.Frontmatter`: one recognized YAML key, `title`,
tagged `omitempty`. -/
structure Frontmatter where
  title : Str
  deriving DecidableEq, Repr

/-- Leading characters of the serialized title key, `title: `. -/
def titleKey : Str := str "title: "

/-- Prefix of a literal block scalar line for the title, `title: |-`
followed by a newline (gopkg.in/yaml.v3 emits newline-containing strings
in literal style). -/
def blockHdr : Str := titleKey ++ ['|', '-', '\n']

/-- Prefix of a single-quoted title line. -/
def sqHdr : Str := titleKey ++ ['\'']

/-- YAML indicator characters that forbid a plain-style scalar when they
start the string (model of the gopkg.in/yaml.v3 emitter's analysis; the
backquote indicator is covered by `yamlSpecial`). -/
def indicatorChars : List Char :=
  ['-', '?', ':', ',', '[', ']', '\x7b', '\x7d', '#', '&', '*', '!', '|',
   '>', '\'', '"', '%', '@']

/-- True when the string is empty or its first character blocks a plain
scalar. -/
def headIndicator (s : Str) : Bool :=
  match s with
  | [] => false
  | c :: _ => indicatorChars.contains c

/-- True when the string is nonempty and starts with Go whitespace. -/
def headSpace (s : Str) : Bool :=
  match s with
  | [] => false
  | c :: _ => isGoSpace c

/-- Does `s` start with `pat`? -/
def strStartsWith : Str → Str → Bool
  | _, [] => true
  | [], _ :: _ => false
  | c :: cs, p :: ps => c = p && strStartsWith cs ps

/-- Does `s` contain `pat` as a contiguous substring? -/
def strContainsSub : Str → Str → Bool
  | [], pat => pat.isEmpty
  | c :: cs, pat => strStartsWith (c :: cs) pat || strContainsSub cs pat

/-- Scalars that YAML resolves to a non-string type and which the emitter
therefore quotes when writing a string value (model of the yaml.v3
resolver: booleans, null, and numeric-looking scalars; the precise set
only selects the quoting branch, and both branches are inverted exactly by
`yamlParseFrontmatter`). -/
def yamlSpecial (s : Str) : Bool :=
  s = str "true" || s = str "false" || s = str "null" || s = str "~" ||
  s = str "yes" || s = str "no" || s = str "on" || s = str "off" ||
  s = str "True" || s = str "False" || s = str "Null" ||
  s.all (fun c => c.isDigit || c = '.' || c = '+' || c = 'e' || c = '_') ||
  s.contains '`'

/-- Model of the gopkg.in/yaml.v3 emitter's decision to avoid plain style
for a single-line string scalar. -/
def yamlNeedsQuote (s : Str) : Bool :=
  s.isEmpty || headSpace s || headSpace s.reverse || headIndicator s ||
  strContainsSub s (str ": ") || strContainsSub s (str " #") ||
  yamlSpecial s

/-- Single-quoted YAML escaping: double every apostrophe. -/
def sqEscape : Str → Str
  | [] => []
  | c :: cs => if c = '\'' then '\'' :: '\'' :: sqEscape cs else c :: sqEscape cs

/-- True when the string is empty or does not start with a space (the
emitter's folding lookahead). -/
def headNotSpace (s : Str) : Bool :=
  match s with
  | [] => true
  | c :: _ => c ≠ ' '

/-- Model of libyaml's line folding of flow-style scalar content, as
inherited by the gopkg.in/yaml.v3 emitter: at a space whose column exceeds
the best width of 80, when the previous character was not a space and the
next character is not a space, the space is replaced by a line break and
the continuation resumes at the block indent of two columns. `col` is the
column at which the next character would be written; the content of a
title line starts at column 7 (plain style, after `title: `) or column 8
(single-quoted, after the opening quote). The plain and single-quoted
writers differ slightly in their boundary conditions at the first and
last character; the round-trip theorem below keeps every space well clear
of the width limit, where all styles agree that no folding occurs. -/
def wrapScalarAux : Str → Nat → Bool → Str
  | [], _, _ => []
  | c :: cs, col, prevSpace =>
    if c = ' ' then
      if !prevSpace && decide (80 < col) && headNotSpace cs then
        '\n' :: ' ' :: ' ' :: wrapScalarAux cs 2 true
      else ' ' :: wrapScalarAux cs (col + 1) true
    else c :: wrapScalarAux cs (col + 1) false

/-- Fold the scalar content written starting at column `col`. -/
def wrapScalar (s : Str) (col : Nat) : Str := wrapScalarAux s col false

/-- No space occurs at index `k` or later. -/
def noSpaceFrom : Nat → Str → Bool
  | _, [] => true
  | 0, c :: cs => if c = ' ' then false else noSpaceFrom 0 cs
  | k + 1, _ :: cs => noSpaceFrom k cs

/-- Every space of the emitted title scalar lies within the first 64
content columns, in whichever style the emitter chooses: folding can only
happen at a space, spaces are never doubled by single-quote escaping, and
content starts at column 7 or 8, so 64 keeps every candidate break point
at least 8 columns below the width limit of 80. Stated on the
single-quote-escaped form, whose space indices dominate the raw ones. -/
def foldSafeTitle (t : Str) : Bool := noSpaceFrom 64 (sqEscape t)

/-- Characters the YAML spec deems printable (tab, printable ASCII, NEL,
and the printable Unicode ranges). For any other character the
gopkg.in/yaml.v3 emitter switches to double-quoted style with escape
expansion, which this model does not cover. -/
def yamlPrintableChar (c : Char) : Bool :=
  c.val = 0x9 || (0x20 ≤ c.val && c.val ≤ 0x7e) || c.val = 0x85 ||
  (0xa0 ≤ c.val && c.val ≤ 0xd7ff) || (0xe000 ≤ c.val && c.val ≤ 0xfffd) ||
  (0x10000 ≤ c.val && c.val ≤ 0x10ffff)

/-- Model of the gopkg.in/yaml.v3 encoding (indent 2) of a
`model.Frontmatter` value, as invoked by `EncodeMarkdown`: the empty
struct (all fields `omitempty` and empty) serializes as an empty flow
mapping; a single-line title as a `title:` line in plain or single-quoted
style, subject to the emitter's 80-column line folding; a
newline-containing title as a literal block scalar (written line by line,
never folded). -/
def yamlEncodeFrontmatter (fm : Frontmatter) : Str :=
  if fm.title = [] then str "\x7b\x7d\n"
  else if '\n' ∈ fm.title then
    blockHdr ++ joinNL ((splitOnNL fm.title).map (fun l => ' ' :: ' ' :: l)) ++ ['\n']
  else if yamlNeedsQuote fm.title then
    (titleKey ++ '\'' :: (wrapScalar (sqEscape fm.title) 8 ++ ['\''])) ++ ['\n']
  else (titleKey ++ wrapScalar fm.title 7) ++ ['\n']

/-- Model of `filefmt.EncodeMarkdown`: delimiter line, YAML-encoded
frontmatter, delimiter line, body verbatim. -/
def encodeMarkdown (fm : Frontmatter) (body : Str) : Str :=
  (delim ++ ['\n']) ++ yamlEncodeFrontmatter fm ++ (delim ++ ['\n']) ++ body

/-- Strip `pat` from the front of a string, returning the rest. -/
def stripPre : Str → Str → Option Str
  | [], s => some s
  | _ :: _, [] => none
  | p :: ps, c :: cs => if c = p then stripPre ps cs else none

/-- Parse the remainder of a single-quoted YAML scalar (after the opening
quote): a doubled apostrophe is a literal apostrophe and the scalar ends
at the closing quote, which must end the input. -/
def parseSQ : Str → Option Str
  | [] => none
  | c :: rest =>
    if c = '\'' then
      match rest with
      | [] => some []
      | c2 :: rest2 => if c2 = '\'' then (parseSQ rest2).map (fun t => '\'' :: t) else none
    else (parseSQ rest).map (fun t => c :: t)

/-- Strip the two-space block indentation from every line. -/
def mapIndented : List Str → Option (List Str)
  | [] => some []
  | l :: ls =>
    match stripPre [' ', ' '] l with
    | some l2 => (mapIndented ls).map (fun r => l2 :: r)
    | none => none

/-- Model of `yaml.Unmarshal` into `model.Frontmatter`, restricted to the
header blocks this codec produces: blank input and the empty flow mapping
give the zero value; otherwise a `title:` line in literal block,
single-quoted, or plain style. -/
def yamlParseFrontmatter (s : Str) : Except Str Frontmatter :=
  if trimSpace s = [] then .ok ⟨[]⟩
  else if trimSpace s = ['\x7b', '\x7d'] then .ok ⟨[]⟩
  else
    match stripPre blockHdr s with
    | some rest =>
      match mapIndented (splitOnNL rest) with
      | some ls => .ok ⟨joinNL ls⟩
      | none => .error (str "yaml: invalid literal block")
    | none =>
      match stripPre sqHdr s with
      | some rest =>
        match parseSQ rest with
        | some t => .ok ⟨t⟩
        | none => .error (str "yaml: unterminated single-quoted scalar")
      | none =>
        match stripPre titleKey s with
        | some rest => .ok ⟨trimSpace rest⟩
        | none => .error (str "yaml: cannot unmarshal into Frontmatter")

/-- View of `Except` as a sum, to derive decidable equality. -/
def exceptToSum {ε α : Type} : Except ε α → ε ⊕ α
  | .error e => .inl e
  | .ok a => .inr a

instance {ε α : Type} [DecidableEq ε] [DecidableEq α] : DecidableEq (Except ε α) :=
  fun x y =>
    decidable_of_iff (exceptToSum x = exceptToSum y)
      (by cases x <;> cases y <;> simp [exceptToSum])

/-- Decode errors: the two `ErrMalformedFrontmatter` wraps, and the
distinct YAML parse failure. -/
inductive DecodeError
  | malformed (msg : Str)
  | yamlErr (msg : Str)
  deriving DecidableEq, Repr

/-- The closing-delimiter scan of `DecodeMarkdown`: first index `≥ i` (in
the original line numbering) whose trimmed content is the delimiter. -/
def findClosingFrom : List Str → Nat → Option Nat
  | [], _ => none
  | l :: ls, i => if trimSpace l = delim then some i else findClosingFrom ls (i + 1)

/-- Model of `filefmt.DecodeMarkdown`. `splitOnNL` never returns an empty
list, so the Go `len(lines) == 0` guard folds into the first-line check
(`[].headI = []`, which never trims to the delimiter). -/
def decodeMarkdown (raw : Str) : Except DecodeError (Frontmatter × Str) :=
  let lines := splitOnNL raw
  if trimSpace lines.headI = delim then
    match findClosingFrom lines.tail 1 with
    | none => .error (.malformed (str "missing closing delimiter"))
    | some ci =>
      match yamlParseFrontmatter (joinNL (lines.tail.take (ci - 1))) with
      | .error m => .error (.yamlErr m)
      | .ok fm => .ok (fm, joinNL (lines.tail.drop ci))
  else .error (.malformed (str "file must start with delimiter"))

/-! ### Lemmas about line splitting and joining -/

theorem splitOnNL_ne_nil (s : Str) : splitOnNL s ≠ [] := by
  cases s with
  | nil => simp [splitOnNL]
  | cons c cs =>
    simp only [splitOnNL]
    split
    · simp
    · split <;> simp

theorem splitOnNL_append_cons (a b : Str) (h : '\n' ∉ a) :
    splitOnNL (a ++ '\n' :: b) = a :: splitOnNL b := by
  induction a with
  | nil => simp [splitOnNL]
  | cons c cs ih =>
    have hc : c ≠ '\n' := by
      intro hcn
      exact h (by simp [hcn])
    have hcs : '\n' ∉ cs := fun hm => h (List.mem_cons_of_mem _ hm)
    simp only [List.cons_append, splitOnNL, List.append_eq, if_neg hc, ih hcs]

theorem splitOnNL_no_newline (a : Str) (h : '\n' ∉ a) : splitOnNL a = [a] := by
  induction a with
  | nil => simp [splitOnNL]
  | cons c cs ih =>
    have hc : c ≠ '\n' := by
      intro hcn
      exact h (by simp [hcn])
    have hcs : '\n' ∉ cs := fun hm => h (List.mem_cons_of_mem _ hm)
    simp only [splitOnNL, if_neg hc, ih hcs]

theorem joinNL_cons_cons (l l2 : Str) (ls : List Str) :
    joinNL (l :: l2 :: ls) = l ++ '\n' :: joinNL (l2 :: ls) := rfl

theorem joinNL_splitOnNL (s : Str) : joinNL (splitOnNL s) = s := by
  induction s with
  | nil => simp [splitOnNL, joinNL]
  | cons c cs ih =>
    by_cases hc : c = '\n'
    · subst hc
      simp only [splitOnNL, if_pos rfl]
      obtain ⟨l, ls, hls⟩ := List.exists_cons_of_ne_nil (splitOnNL_ne_nil cs)
      rw [hls] at ih ⊢
      simp [joinNL_cons_cons, ih]
    · simp only [splitOnNL, if_neg hc]
      obtain ⟨l, ls, hls⟩ := List.exists_cons_of_ne_nil (splitOnNL_ne_nil cs)
      rw [hls] at ih ⊢
      cases ls with
      | nil => simpa [joinNL] using congrArg (fun t => c :: t) ih
      | cons l2 ls2 => simpa [joinNL_cons_cons] using congrArg (fun t => c :: t) ih

theorem splitOnNL_joinNL (ls : List Str) (hne : ls ≠ [])
    (h : ∀ l ∈ ls, '\n' ∉ l) : splitOnNL (joinNL ls) = ls := by
  induction ls with
  | nil => exact absurd rfl hne
  | cons l ls ih =>
    cases ls with
    | nil => simpa [joinNL] using splitOnNL_no_newline l (h l (by simp))
    | cons l2 ls2 =>
      rw [joinNL_cons_cons, splitOnNL_append_cons l _ (h l (by simp))]
      rw [ih (by simp) (fun x hx => h x (List.mem_cons_of_mem _ hx))]

/-! ### Lemmas about whitespace trimming -/

theorem dropWhile_append_singleton_of_neg (p : Char → Bool) (xs : Str) (c : Char)
    (h : p c = false) : ∃ S, List.dropWhile p (xs ++ [c]) = S ++ [c] := by
  induction xs with
  | nil => exact ⟨[], by simp [List.dropWhile, h]⟩
  | cons x xs ih =>
    by_cases hx : p x
    · simpa [List.dropWhile, hx] using ih
    · exact ⟨x :: xs, by simp [List.dropWhile, hx]⟩

theorem trimSpace_cons_of_nonspace (c : Char) (cs : Str) (h : isGoSpace c = false) :
    ∃ r, trimSpace (c :: cs) = c :: r := by
  obtain ⟨S, hS⟩ := dropWhile_append_singleton_of_neg isGoSpace cs.reverse c h
  refine ⟨S.reverse, ?_⟩
  simp only [trimSpace, trimRight, List.dropWhile_cons, h, Bool.false_eq_true, if_false,
    List.reverse_cons, hS, List.reverse_append, List.reverse_cons, List.reverse_nil,
    List.nil_append, List.cons_append]

theorem dropWhile_append_of_all (p : Char → Bool) (xs ys : Str)
    (h : ∀ x ∈ xs, p x = true) :
    List.dropWhile p (xs ++ ys) = List.dropWhile p ys := by
  induction xs with
  | nil => simp
  | cons x xs ih =>
    simp only [List.cons_append, List.dropWhile_cons, h x (by simp)]
    exact ih (fun x hx => h x (List.mem_cons_of_mem _ hx))

theorem trimSpace_pad (p q : Str) (hp : ∀ c ∈ p, isGoSpace c = true)
    (hq : ∀ c ∈ q, isGoSpace c = true) :
    trimSpace (p ++ delim ++ q) = delim := by
  have h1 : List.dropWhile isGoSpace (p ++ delim ++ q) = delim ++ q := by
    rw [List.append_assoc, dropWhile_append_of_all isGoSpace p (delim ++ q) hp]
    simp [delim, str, List.dropWhile, isGoSpace]
  have h2 : List.dropWhile isGoSpace (q.reverse ++ delim.reverse) = delim.reverse := by
    rw [dropWhile_append_of_all isGoSpace q.reverse delim.reverse
      (fun c hc => hq c (by simpa using hc))]
    simp [delim, str, List.dropWhile, isGoSpace]
  simp only [trimSpace, trimRight, h1, List.reverse_append, h2, List.reverse_reverse]

theorem trimSpace_delim : trimSpace delim = delim := by decide

theorem trimSpace_nil : trimSpace ([] : Str) = [] := by decide

theorem trimSpace_titleKey_ne (x : Str) : trimSpace (titleKey ++ x) ≠ delim := by
  have h : titleKey ++ x = 't' :: (str "itle: " ++ x) := by simp [titleKey, str]
  rw [h]
  obtain ⟨r, hr⟩ := trimSpace_cons_of_nonspace 't' (str "itle: " ++ x) (by decide)
  rw [hr]
  intro hcontra
  have := List.head_eq_of_cons_eq hcontra
  simp at this

theorem trimSpace_titleKey_head (x : Str) :
    ∃ r, trimSpace (titleKey ++ x) = 't' :: r := by
  have h : titleKey ++ x = 't' :: (str "itle: " ++ x) := by simp [titleKey, str]
  rw [h]
  exact trimSpace_cons_of_nonspace 't' (str "itle: " ++ x) (by decide)

/-! ### Decoding an encoded document with a single-line header -/

theorem newline_not_mem_delim : '\n' ∉ delim := by decide

theorem splitOnNL_encoded (L body : Str) (h : '\n' ∉ L) :
    splitOnNL ((delim ++ ['\n']) ++ (L ++ ['\n']) ++ (delim ++ ['\n']) ++ body)
      = delim :: L :: delim :: splitOnNL body := by
  have e1 : (delim ++ ['\n']) ++ (L ++ ['\n']) ++ (delim ++ ['\n']) ++ body
      = delim ++ '\n' :: (L ++ '\n' :: (delim ++ '\n' :: body)) := by
    simp [List.append_assoc]
  rw [e1, splitOnNL_append_cons delim _ newline_not_mem_delim,
    splitOnNL_append_cons L _ h, splitOnNL_append_cons delim _ newline_not_mem_delim]

theorem decode_encoded_single (L body : Str) (hnl : '\n' ∉ L)
    (hne : trimSpace L ≠ delim) :
    decodeMarkdown ((delim ++ ['\n']) ++ (L ++ ['\n']) ++ (delim ++ ['\n']) ++ body)
      = match yamlParseFrontmatter L with
        | .ok fm => .ok (fm, body)
        | .error m => .error (.yamlErr m) := by
  unfold decodeMarkdown
  rw [splitOnNL_encoded L body hnl]
  simp only [List.headI, List.tail_cons, trimSpace_delim, if_pos rfl]
  have hclose : findClosingFrom (L :: delim :: splitOnNL body) 1 = some 2 := by
    simp [findClosingFrom, hne, trimSpace_delim]
  rw [hclose]
  simp only [List.take_cons, List.take_zero, List.drop_succ_cons, List.drop_zero,
    List.tail_cons, joinNL, joinNL_splitOnNL, if_true]
  cases h : yamlParseFrontmatter L <;> simp [h]

/-! ### Inversion of the YAML title-line forms -/

theorem stripPre_self_append (p s : Str) : stripPre p (p ++ s) = some s := by
  induction p with
  | nil => simp [stripPre]
  | cons c cs ih => simp [stripPre, ih]

theorem stripPre_append_both (a p s : Str) :
    stripPre (a ++ p) (a ++ s) = stripPre p s := by
  induction a with
  | nil => simp
  | cons c cs ih => simp [stripPre, ih]

theorem parseSQ_escape (t : Str) : parseSQ (sqEscape t ++ ['\'']) = some t := by
  induction t with
  | nil => simp [sqEscape, parseSQ]
  | cons c cs ih =>
    by_cases hc : c = '\''
    · subst hc
      simp [sqEscape, parseSQ, ih]
    · have h1 : sqEscape (c :: cs) = c :: sqEscape cs := by simp [sqEscape, hc]
      rw [h1, List.cons_append]
      unfold parseSQ
      simp [hc, ih]

theorem yamlParse_quoted (t : Str) :
    yamlParseFrontmatter (titleKey ++ '\'' :: (sqEscape t ++ ['\''])) = .ok ⟨t⟩ := by
  obtain ⟨r, hr⟩ := trimSpace_titleKey_head ('\'' :: (sqEscape t ++ ['\'']))
  unfold yamlParseFrontmatter
  rw [hr]
  have h1 : ('t' : Char) :: r ≠ [] := by simp
  have h2 : ('t' : Char) :: r ≠ ['\x7b', '\x7d'] := by
    intro hcontra
    have := List.head_eq_of_cons_eq hcontra
    simp at this
  rw [if_neg h1, if_neg h2]
  have hblock : stripPre blockHdr (titleKey ++ '\'' :: (sqEscape t ++ ['\''])) = none := by
    show stripPre (titleKey ++ ['|', '-', '\n']) (titleKey ++ '\'' :: (sqEscape t ++ ['\''])) = none
    rw [stripPre_append_both]
    simp [stripPre]
  have hsq : stripPre sqHdr (titleKey ++ '\'' :: (sqEscape t ++ ['\'']))
      = some (sqEscape t ++ ['\'']) := by
    show stripPre (titleKey ++ ['\'']) (titleKey ++ '\'' :: (sqEscape t ++ ['\''])) = _
    have : titleKey ++ '\'' :: (sqEscape t ++ ['\''])
        = (titleKey ++ ['\'']) ++ (sqEscape t ++ ['\'']) := by simp
    rw [this, stripPre_self_append]
  rw [hblock, hsq]
  simp [parseSQ_escape]

theorem headSpace_reverse_trim (t : Str) (hh : headSpace t = false)
    (hr : headSpace t.reverse = false) : trimSpace t = t := by
  cases t with
  | nil => exact trimSpace_nil
  | cons c cs =>
    have hc : isGoSpace c = false := by simpa [headSpace] using hh
    have h1 : List.dropWhile isGoSpace (c :: cs) = c :: cs := by
      simp [List.dropWhile, hc]
    have h2 : List.dropWhile isGoSpace (c :: cs).reverse = (c :: cs).reverse := by
      cases hrev : (c :: cs).reverse with
      | nil => simp at hrev
      | cons d ds =>
        have hd : isGoSpace d = false := by
          have := hr
          rw [hrev] at this
          simpa [headSpace] using this
        simp [List.dropWhile, hd]
    simp only [trimSpace, trimRight, h1, h2, List.reverse_reverse]

theorem yamlParse_plain (t : Str) (h : yamlNeedsQuote t = false) :
    yamlParseFrontmatter (titleKey ++ t) = .ok ⟨t⟩ := by
  have hparts := h
  simp only [yamlNeedsQuote, Bool.or_eq_false_iff] at hparts
  obtain ⟨⟨⟨⟨⟨⟨hemp, hhead⟩, hrev⟩, hind⟩, _⟩, _⟩, _⟩ := hparts
  obtain ⟨c, cs, hct⟩ := List.exists_cons_of_ne_nil (by simpa using hemp : t ≠ [])
  have hcnot : indicatorChars.contains c = false := by
    rw [hct] at hind
    simpa [headIndicator] using hind
  have hcpipe : c ≠ '|' := by
    intro hcontra
    rw [hcontra] at hcnot
    simp [indicatorChars] at hcnot
  have hcq : c ≠ '\'' := by
    intro hcontra
    rw [hcontra] at hcnot
    simp [indicatorChars] at hcnot
  obtain ⟨r, hr⟩ := trimSpace_titleKey_head t
  unfold yamlParseFrontmatter
  rw [hr]
  have h1 : ('t' : Char) :: r ≠ [] := by simp
  have h2 : ('t' : Char) :: r ≠ ['\x7b', '\x7d'] := by
    intro hcontra
    have := List.head_eq_of_cons_eq hcontra
    simp at this
  rw [if_neg h1, if_neg h2]
  have hblock : stripPre blockHdr (titleKey ++ t) = none := by
    show stripPre (titleKey ++ ['|', '-', '\n']) (titleKey ++ t) = none
    rw [stripPre_append_both, hct]
    simp [stripPre, hcpipe]
  have hsq : stripPre sqHdr (titleKey ++ t) = none := by
    show stripPre (titleKey ++ ['\'']) (titleKey ++ t) = none
    rw [stripPre_append_both, hct]
    simp [stripPre, hcq]
  rw [hblock, hsq]
  simp [stripPre_self_append, headSpace_reverse_trim t hhead hrev]

theorem mem_sqEscape (c : Char) (t : Str) (h : c ∈ sqEscape t) : c = '\'' ∨ c ∈ t := by
  induction t with
  | nil => simp [sqEscape] at h
  | cons d ds ih =>
    by_cases hd : d = '\''
    · subst hd
      have hstep : sqEscape ('\'' :: ds) = '\'' :: '\'' :: sqEscape ds := by
        simp [sqEscape]
      rw [hstep] at h
      rcases List.mem_cons.mp h with h3 | h3
      · exact Or.inl h3
      · rcases List.mem_cons.mp h3 with h4 | h4
        · exact Or.inl h4
        · rcases ih h4 with h5 | h5
          · exact Or.inl h5
          · exact Or.inr (List.mem_cons_of_mem _ h5)
    · simp only [sqEscape, if_neg hd, List.mem_cons] at h
      rcases h with h | h
      · exact Or.inr (by simp [h])
      · rcases ih h with h2 | h2
        · exact Or.inl h2
        · exact Or.inr (List.mem_cons_of_mem _ h2)

/-! ### When line folding cannot trigger -/

theorem wrapScalarAux_cons_space (cs : Str) (col : Nat) (b : Bool) :
    wrapScalarAux (' ' :: cs) col b =
      if !b && decide (80 < col) && headNotSpace cs then
        '\n' :: ' ' :: ' ' :: wrapScalarAux cs 2 true
      else ' ' :: wrapScalarAux cs (col + 1) true := by
  simp [wrapScalarAux]

theorem wrapScalarAux_cons_nonspace (c : Char) (cs : Str) (col : Nat) (b : Bool)
    (hc : c ≠ ' ') :
    wrapScalarAux (c :: cs) col b = c :: wrapScalarAux cs (col + 1) false := by
  simp [wrapScalarAux, hc]

theorem noSpaceFrom_nil (k : Nat) : noSpaceFrom k [] = true := by
  cases k <;> rfl

theorem noSpaceFrom_mono (k : Nat) (s : Str) (h : noSpaceFrom k s = true) :
    noSpaceFrom (k + 1) s = true := by
  induction k generalizing s with
  | zero =>
    cases s with
    | nil => rfl
    | cons c cs =>
      by_cases hc : c = ' '
      · rw [hc] at h
        simp [noSpaceFrom] at h
      · show noSpaceFrom 0 cs = true
        simp only [noSpaceFrom, if_neg hc] at h
        exact h
  | succ k ih =>
    cases s with
    | nil => rfl
    | cons c cs => exact ih cs h

theorem wrapScalarAux_no_space (s : Str) (col : Nat) (b : Bool)
    (hs : noSpaceFrom 0 s = true) : wrapScalarAux s col b = s := by
  induction s generalizing col b with
  | nil => rfl
  | cons c cs ih =>
    by_cases hc : c = ' '
    · rw [hc] at hs
      simp [noSpaceFrom] at hs
    · simp only [noSpaceFrom, if_neg hc] at hs
      simp only [wrapScalarAux, if_neg hc, ih (col + 1) false hs]

theorem wrapScalarAux_early_spaces (s : Str) (k col : Nat) (b : Bool)
    (hs : noSpaceFrom k s = true) (hcol : col + k ≤ 81) :
    wrapScalarAux s col b = s := by
  induction s generalizing k col b with
  | nil => rfl
  | cons c cs ih =>
    cases k with
    | zero => exact wrapScalarAux_no_space (c :: cs) col b hs
    | succ k2 =>
      have hs2 : noSpaceFrom k2 cs = true := hs
      by_cases hc : c = ' '
      · subst hc
        have hd : decide (80 < col) = false := by
          simp only [decide_eq_false_iff_not]
          omega
        have hcond : (!b && decide (80 < col) && headNotSpace cs) = false := by
          rw [hd]
          simp
        rw [wrapScalarAux_cons_space, hcond]
        simp only [Bool.false_eq_true, if_false]
        rw [ih k2 (col + 1) true hs2 (by omega)]
      · rw [wrapScalarAux_cons_nonspace c cs col b hc,
          ih k2 (col + 1) false hs2 (by omega)]

theorem sqEscape_noSpaceFrom (t : Str) (k : Nat)
    (h : noSpaceFrom k (sqEscape t) = true) : noSpaceFrom k t = true := by
  induction t generalizing k with
  | nil => exact noSpaceFrom_nil k
  | cons c cs ih =>
    by_cases hc : c = '\''
    · subst hc
      have hstep : sqEscape ('\'' :: cs) = '\'' :: '\'' :: sqEscape cs := by
        simp [sqEscape]
      rw [hstep] at h
      cases k with
      | zero =>
        have h1 : noSpaceFrom 0 (sqEscape cs) = true := by
          simpa [noSpaceFrom] using h
        have h2 := ih 0 h1
        simpa [noSpaceFrom] using h2
      | succ k2 =>
        cases k2 with
        | zero =>
          have h1 : noSpaceFrom 0 (sqEscape cs) = true := by
            simpa [noSpaceFrom] using h
          exact ih 0 h1
        | succ k3 =>
          have h1 : noSpaceFrom k3 (sqEscape cs) = true := h
          exact noSpaceFrom_mono k3 cs (ih k3 h1)
    · have hstep : sqEscape (c :: cs) = c :: sqEscape cs := by
        simp [sqEscape, hc]
      rw [hstep] at h
      cases k with
      | zero =>
        by_cases hsp : c = ' '
        · rw [hsp] at h
          simp [noSpaceFrom] at h
        · have h1 : noSpaceFrom 0 (sqEscape cs) = true := by
            simpa [noSpaceFrom, hsp] using h
          have h2 := ih 0 h1
          simpa [noSpaceFrom, hsp] using h2
      | succ k2 => exact ih k2 h

/-- Round-trip for single-line titles: helper for the C1 argument.
Encoding any metadata whose title is nonempty, newline-free, and has all
its spaces early enough that the emitter's 80-column folding cannot
trigger, and then decoding, recovers the pair exactly. -/
theorem roundtrip_single_line (t body : Str) (h1 : t ≠ []) (h2 : '\n' ∉ t)
    (h3 : foldSafeTitle t = true) :
    decodeMarkdown (encodeMarkdown ⟨t⟩ body) = .ok (⟨t⟩, body) := by
  have h3q : noSpaceFrom 64 (sqEscape t) = true := h3
  by_cases hq : yamlNeedsQuote t = true
  · have hw : wrapScalar (sqEscape t) 8 = sqEscape t :=
      wrapScalarAux_early_spaces (sqEscape t) 64 8 false h3q (by omega)
    have henc : yamlEncodeFrontmatter ⟨t⟩
        = (titleKey ++ '\'' :: (sqEscape t ++ ['\''])) ++ ['\n'] := by
      simp [yamlEncodeFrontmatter, h1, h2, hq, hw]
    have hnl : '\n' ∉ titleKey ++ '\'' :: (sqEscape t ++ ['\'']) := by
      intro hmem
      simp only [List.mem_append, List.mem_cons] at hmem
      rcases hmem with hk | hc | hs | hq2
      · revert hk
        decide
      · revert hc
        decide
      · rcases mem_sqEscape _ _ hs with he | he
        · exact absurd he (by decide)
        · exact h2 he
      · revert hq2
        decide
    rw [encodeMarkdown, henc,
      decode_encoded_single _ body hnl (trimSpace_titleKey_ne _), yamlParse_quoted]
  · have hqf : yamlNeedsQuote t = false := by simpa using hq
    have ht : noSpaceFrom 64 t = true := sqEscape_noSpaceFrom t 64 h3q
    have hw : wrapScalar t 7 = t :=
      wrapScalarAux_early_spaces t 64 7 false ht (by omega)
    have henc : yamlEncodeFrontmatter ⟨t⟩ = (titleKey ++ t) ++ ['\n'] := by
      simp [yamlEncodeFrontmatter, h1, h2, hqf, hw]
    have hnl : '\n' ∉ titleKey ++ t := by
      intro hmem
      rcases List.mem_append.mp hmem with hk | ht
      · revert hk
        decide
      · exact h2 ht
    rw [encodeMarkdown, henc,
      decode_encoded_single _ body hnl (trimSpace_titleKey_ne _), yamlParse_plain t hqf]

/-- C1: the round-trip property as stated fails on the code: a title
containing a newline and an interior delimiter line is emitted by the YAML
layer as a literal block scalar whose indented delimiter line trims to the
closing token, so decoding stops the header early. Title `a\n---\nb` with
the empty body (which trivially satisfies the body proviso) decodes to
title `a` and body `  b\n---\n` instead of the original pair. -/
theorem c1_counterexample :
    str "a\n---\nb" ≠ [] ∧
    decodeMarkdown (encodeMarkdown ⟨str "a\n---\nb"⟩ [])
      = .ok (⟨str "a"⟩, str "  b\n---\n") ∧
    decodeMarkdown (encodeMarkdown ⟨str "a\n---\nb"⟩ [])
      ≠ .ok (⟨str "a\n---\nb"⟩, []) := by
  refine ⟨by decide, by decide, by decide⟩

/-- C1 (amended): for every metadata value whose nonempty title contains
no newline, consists of YAML-printable characters, and keeps every space
of its emitted scalar within the first 64 content columns — so that the
emitter's 80-column line folding cannot trigger in any scalar style — and
for every body whose first line is not the delimiter token (the original
proviso), decoding the encoding yields exactly the original title and a
byte-identical body. The printability hypothesis guards the model: for
non-printable titles the real emitter switches to double-quoted style
with escape expansion, which is outside this embedding. -/
theorem c1_roundtrip (t body : Str) (h1 : t ≠ []) (h2 : '\n' ∉ t)
    (h3 : foldSafeTitle t = true)
    (_h4 : ∀ c ∈ t, yamlPrintableChar c = true)
    (_h5 : (splitOnNL body).headI ≠ delim) :
    decodeMarkdown (encodeMarkdown ⟨t⟩ body) = .ok (⟨t⟩, body) :=
  roundtrip_single_line t body h1 h2 h3

/-- C1 witness: the round-trip theorem applied at a concrete pair whose
body contains an interior delimiter line. -/
theorem c1_roundtrip_witness :
    decodeMarkdown (encodeMarkdown ⟨str "hello"⟩ (str "x\n---\ny"))
      = .ok (⟨str "hello"⟩, str "x\n---\ny") :=
  c1_roundtrip (str "hello") (str "x\n---\ny") (by decide) (by decide) (by decide)
    (by decide) (by decide)

set_option maxRecDepth 8000

/-- The folding model at work: a plain-eligible title of eighty `a`s
followed by ` ---` is emitted folded — the space sits at column 87, past
the best width — so the continuation line `  ---` trims to the delimiter
and decoding closes the header there, breaking round-trip exactly as the
real emitter does. -/
theorem wrap_fold_breaks_roundtrip :
    yamlEncodeFrontmatter ⟨List.replicate 80 'a' ++ str " ---"⟩
      = titleKey ++ List.replicate 80 'a' ++ str "\n  ---\n" ∧
    decodeMarkdown (encodeMarkdown ⟨List.replicate 80 'a' ++ str " ---"⟩ [])
      = .ok (⟨List.replicate 80 'a'⟩, str "---\n") := by
  exact ⟨by decide, by decide⟩

/-- C5: encoding an empty title omits the `title` field entirely — the
header block is the empty flow mapping, it contains no `title` text at all
— and decoding the resulting document succeeds with an empty title and the
original body, for every body. -/
theorem c5_empty_title (body : Str) :
    encodeMarkdown ⟨[]⟩ body = str "---\n\x7b\x7d\n---\n" ++ body ∧
    strContainsSub (yamlEncodeFrontmatter ⟨[]⟩) (str "title") = false ∧
    decodeMarkdown (encodeMarkdown ⟨[]⟩ body) = .ok (⟨[]⟩, body) := by
  refine ⟨rfl, by decide, ?_⟩
  have henc : yamlEncodeFrontmatter ⟨[]⟩ = (['\x7b', '\x7d'] : Str) ++ ['\n'] := by decide
  rw [encodeMarkdown, henc, decode_encoded_single _ body (by decide) (by decide)]
  have hp : yamlParseFrontmatter ['\x7b', '\x7d'] = .ok ⟨[]⟩ := by decide
  simp [hp]

/-- C7: the end-to-end example: encoding title `Bug: crash on start` with
body `Steps:\n1. run\n2. crash` produces exactly the documented bytes
(single-quoted title line, no trailing-newline normalization of the body),
and decoding that output returns the original pair exactly. -/
theorem c7_example :
    encodeMarkdown ⟨str "Bug: crash on start"⟩ (str "Steps:\n1. run\n2. crash")
      = str "---\ntitle: 'Bug: crash on start'\n---\nSteps:\n1. run\n2. crash" ∧
    decodeMarkdown (str "---\ntitle: 'Bug: crash on start'\n---\nSteps:\n1. run\n2. crash")
      = .ok (⟨str "Bug: crash on start"⟩, str "Steps:\n1. run\n2. crash") := by
  exact ⟨by decide, by decide⟩

/-! ### Documents with well-formed (possibly padded) delimiter lines -/

theorem splitOnNL_mem_no_newline (s : Str) : ∀ l ∈ splitOnNL s, '\n' ∉ l := by
  induction s with
  | nil =>
    intro l hl
    simp only [splitOnNL, List.mem_singleton] at hl
    simp [hl]
  | cons c cs ih =>
    intro l hl
    by_cases hc : c = '\n'
    · subst hc
      simp only [splitOnNL, if_pos rfl] at hl
      rcases List.mem_cons.mp hl with h | h
      · simp [h]
      · exact ih l h
    · simp only [splitOnNL, if_neg hc] at hl
      obtain ⟨l1, ls1, hls⟩ := List.exists_cons_of_ne_nil (splitOnNL_ne_nil cs)
      rw [hls] at hl
      rcases List.mem_cons.mp hl with h | h
      · subst h
        intro hmem
        rcases List.mem_cons.mp hmem with h2 | h2
        · exact hc h2.symm
        · exact ih l1 (by rw [hls]; exact List.mem_cons_self _ _) h2
      · exact ih l (by rw [hls]; exact List.mem_cons_of_mem _ h)

theorem findClosing_append_cons (mid : List Str) (lc : Str) (rest : List Str)
    (hm : ∀ l ∈ mid, trimSpace l ≠ delim) (hcl : trimSpace lc = delim) :
    ∀ i, findClosingFrom (mid ++ lc :: rest) i = some (mid.length + i) := by
  induction mid with
  | nil =>
    intro i
    simp [findClosingFrom, hcl]
  | cons m ms ih =>
    intro i
    have hne : trimSpace m ≠ delim := hm m (by simp)
    simp only [List.cons_append, findClosingFrom, List.append_eq, if_neg hne]
    rw [ih (fun l hl => hm l (List.mem_cons_of_mem _ hl)) (i + 1)]
    congr 1
    simp only [List.length_cons]
    omega

/-- Decoding a document given as its list of lines: a (possibly padded)
opening delimiter line, header lines none of which trim to the delimiter,
a (possibly padded) closing delimiter line, then arbitrary body lines.
Helper shared by the C6 and C9 arguments. -/
theorem decode_lines (l0 lc : Str) (mid rest : List Str) (fm : Frontmatter)
    (h0 : trimSpace l0 = delim) (h0n : '\n' ∉ l0)
    (hcl : trimSpace lc = delim) (hcn : '\n' ∉ lc)
    (hm : ∀ l ∈ mid, '\n' ∉ l ∧ trimSpace l ≠ delim)
    (hrest : ∀ l ∈ rest, '\n' ∉ l)
    (hy : yamlParseFrontmatter (joinNL mid) = .ok fm) :
    decodeMarkdown (joinNL (l0 :: (mid ++ lc :: rest))) = .ok (fm, joinNL rest) := by
  have hsplit : splitOnNL (joinNL (l0 :: (mid ++ lc :: rest)))
      = l0 :: (mid ++ lc :: rest) := by
    apply splitOnNL_joinNL _ (by simp)
    intro l hl
    rcases List.mem_cons.mp hl with h | h
    · rw [h]
      exact h0n
    · rcases List.mem_append.mp h with h | h
      · exact (hm l h).1
      · rcases List.mem_cons.mp h with h | h
        · rw [h]
          exact hcn
        · exact hrest l h
  unfold decodeMarkdown
  rw [hsplit]
  simp only [List.headI, List.tail_cons, h0, if_pos rfl]
  rw [findClosing_append_cons mid lc rest (fun l hl => (hm l hl).2) hcl 1]
  have htake : (mid ++ lc :: rest).take (mid.length + 1 - 1) = mid := by
    simp [List.take_left]
  have hdrop : (mid ++ lc :: rest).drop (mid.length + 1) = rest := by
    have h1 : mid ++ lc :: rest = (mid ++ [lc]) ++ rest := by simp
    rw [h1, show mid.length + 1 = (mid ++ [lc]).length from by simp, List.drop_left]
  simp [htake, hdrop, hy]

/-- Decoding a document whose last line is a (possibly padded) closing
delimiter: the empty-body special case of `decode_lines`. -/
theorem decode_closing_last (l0 lc : Str) (mid : List Str) (fm : Frontmatter)
    (h0 : trimSpace l0 = delim) (h0n : '\n' ∉ l0)
    (hcl : trimSpace lc = delim) (hcn : '\n' ∉ lc)
    (hm : ∀ l ∈ mid, '\n' ∉ l ∧ trimSpace l ≠ delim)
    (hy : yamlParseFrontmatter (joinNL mid) = .ok fm) :
    decodeMarkdown (joinNL (l0 :: (mid ++ [lc]))) = .ok (fm, []) := by
  have h := decode_lines l0 lc mid [] fm h0 h0n hcl hcn hm (by simp) hy
  simpa [joinNL] using h

/-- C6: for every document whose closing delimiter line is the last line
(a delimiter first line, header lines none of which trim to the delimiter
and whose joined content parses, then the closing delimiter with nothing
after it), decoding succeeds and returns an empty body — not an error. -/
theorem c6_no_body (l0 : Str) (mid : List Str) (fm : Frontmatter)
    (h0 : trimSpace l0 = delim) (h0n : '\n' ∉ l0)
    (hm : ∀ l ∈ mid, '\n' ∉ l ∧ trimSpace l ≠ delim)
    (hy : yamlParseFrontmatter (joinNL mid) = .ok fm) :
    decodeMarkdown (joinNL (l0 :: (mid ++ [delim]))) = .ok (fm, []) :=
  decode_closing_last l0 delim mid fm h0 h0n trimSpace_delim newline_not_mem_delim hm hy

/-- C6 witness: decoding `---\ntitle: x\n---` (closing delimiter last,
no body lines) yields the title `x` and the empty body. -/
theorem c6_no_body_witness :
    decodeMarkdown (str "---\ntitle: x\n---") = .ok (⟨str "x"⟩, []) := by
  have h := c6_no_body (str "---") [str "title: x"] ⟨str "x"⟩ (by decide) (by decide)
    (by decide) (by decide)
  exact (by decide : joinNL (str "---" :: ([str "title: x"] ++ [delim]))
    = str "---\ntitle: x\n---") ▸ h

/-- C9: the decoder tolerates surrounding whitespace on delimiter lines
without altering the body — for every body, a document whose opening and
closing delimiter lines are the token padded with Go whitespace (spaces,
a trailing carriage return) decodes successfully with the body returned
byte-identical; and a document whose closing delimiter is the last line
(in particular the bare two-delimiter-line document, whose empty header
block parses as empty YAML) decodes to an empty title and empty body
rather than failing. -/
theorem c9_whitespace_tolerance (p q r s : Str) (mid : List Str) (fm : Frontmatter)
    (body : Str)
    (hp : ∀ c ∈ p, isGoSpace c = true ∧ c ≠ '\n')
    (hq : ∀ c ∈ q, isGoSpace c = true ∧ c ≠ '\n')
    (hr : ∀ c ∈ r, isGoSpace c = true ∧ c ≠ '\n')
    (hs : ∀ c ∈ s, isGoSpace c = true ∧ c ≠ '\n')
    (hm : ∀ l ∈ mid, '\n' ∉ l ∧ trimSpace l ≠ delim)
    (hy : yamlParseFrontmatter (joinNL mid) = .ok fm) :
    decodeMarkdown
        (joinNL ((p ++ delim ++ q) :: (mid ++ (r ++ delim ++ s) :: splitOnNL body)))
      = .ok (fm, body) ∧
    decodeMarkdown (joinNL ((p ++ delim ++ q) :: (mid ++ [r ++ delim ++ s])))
      = .ok (fm, []) := by
  have hopen : trimSpace (p ++ delim ++ q) = delim :=
    trimSpace_pad p q (fun c hc => (hp c hc).1) (fun c hc => (hq c hc).1)
  have hopenn : '\n' ∉ p ++ delim ++ q := by
    intro hmem
    rcases List.mem_append.mp hmem with h | h
    · rcases List.mem_append.mp h with h | h
      · exact (hp '\n' h).2 rfl
      · exact newline_not_mem_delim h
    · exact (hq '\n' h).2 rfl
  have hclose : trimSpace (r ++ delim ++ s) = delim :=
    trimSpace_pad r s (fun c hc => (hr c hc).1) (fun c hc => (hs c hc).1)
  have hclosen : '\n' ∉ r ++ delim ++ s := by
    intro hmem
    rcases List.mem_append.mp hmem with h | h
    · rcases List.mem_append.mp h with h | h
      · exact (hr '\n' h).2 rfl
      · exact newline_not_mem_delim h
    · exact (hs '\n' h).2 rfl
  constructor
  · have h := decode_lines (p ++ delim ++ q) (r ++ delim ++ s) mid (splitOnNL body)
      fm hopen hopenn hclose hclosen hm (splitOnNL_mem_no_newline body) hy
    rw [joinNL_splitOnNL] at h
    exact h
  · exact decode_closing_last _ _ mid fm hopen hopenn hclose hclosen hm hy

/-- C9 witness: a space-padded opening delimiter and a carriage-return
padded closing delimiter are accepted with a multi-line body returned
byte-identical, and the bare two-line document `---\n---` decodes to an
empty title and empty body. -/
theorem c9_whitespace_tolerance_witness :
    decodeMarkdown (str " ---\ntitle: x\n---\r\nhello\nworld")
      = .ok (⟨str "x"⟩, str "hello\nworld") ∧
    decodeMarkdown (str "---\n---") = .ok (⟨[]⟩, []) := by
  constructor
  · have h := (c9_whitespace_tolerance [' '] [] [] ['\r'] [str "title: x"] ⟨str "x"⟩
      (str "hello\nworld")
      (by decide) (by decide) (by decide) (by decide) (by decide) (by decide)).1
    exact (by decide : joinNL (([' '] ++ delim ++ []) :: ([str "title: x"] ++
      (([] : Str) ++ delim ++ ['\r']) :: splitOnNL (str "hello\nworld")))
      = str " ---\ntitle: x\n---\r\nhello\nworld") ▸ h
  · have h := (c9_whitespace_tolerance [] [] [] [] [] ⟨[]⟩ []
      (by decide) (by decide) (by decide) (by decide) (by decide) (by decide)).2
    exact (by decide : joinNL ((([] : Str) ++ delim ++ []) :: ([] ++ [([] : Str) ++ delim ++ []]))
      = str "---\n---") ▸ h

/-! ### Characterization of the malformed-frontmatter error -/

theorem findClosingFrom_eq_none (ls : List Str) (i : Nat) :
    findClosingFrom ls i = none ↔ ∀ l ∈ ls, trimSpace l ≠ delim := by
  induction ls generalizing i with
  | nil => simp [findClosingFrom]
  | cons l ls ih =>
    by_cases h : trimSpace l = delim
    · simp [findClosingFrom, h]
    · simp [findClosingFrom, h, ih (i + 1)]

theorem yaml_match_ne_malformed (x : Except Str Frontmatter) (b : List Str) (m : Str) :
    (match x with
      | Except.error e => Except.error (DecodeError.yamlErr e)
      | Except.ok fm => (Except.ok (fm, joinNL b) : Except DecodeError (Frontmatter × Str)))
      ≠ Except.error (DecodeError.malformed m) := by
  cases x <;> simp

/-- C4: `DecodeMarkdown` returns the malformed-frontmatter error exactly
when the first line does not trim to the delimiter token, or when no line
after the first trims to the delimiter token; with a valid opening and an
existing closing line the decoder proceeds to YAML parsing, whose failure
is a distinct error. -/
theorem c4_malformed_iff (raw : Str) :
    (∃ m, decodeMarkdown raw = .error (.malformed m)) ↔
      (trimSpace (splitOnNL raw).headI ≠ delim ∨
        ∀ l ∈ (splitOnNL raw).tail, trimSpace l ≠ delim) := by
  unfold decodeMarkdown
  by_cases h0 : trimSpace (splitOnNL raw).headI = delim
  · rw [if_pos h0]
    cases hc : findClosingFrom (splitOnNL raw).tail 1 with
    | none =>
      constructor
      · intro _
        exact Or.inr ((findClosingFrom_eq_none _ _).mp hc)
      · intro _
        exact ⟨str "missing closing delimiter", rfl⟩
    | some ci =>
      have hnone : ¬∀ l ∈ (splitOnNL raw).tail, trimSpace l ≠ delim := by
        intro hall
        rw [(findClosingFrom_eq_none _ _).mpr hall] at hc
        exact Option.noConfusion hc
      constructor
      · intro ⟨m, hm⟩
        exact absurd hm
          (yaml_match_ne_malformed
            (yamlParseFrontmatter (joinNL (List.take (ci - 1) (splitOnNL raw).tail)))
            (List.drop ci (splitOnNL raw).tail) m)
      · intro h
        rcases h with h | h
        · exact absurd h0 h
        · exact absurd h hnone
  · rw [if_neg h0]
    constructor
    · intro _
      exact Or.inl h0
    · intro _
      exact ⟨str "file must start with delimiter", rfl⟩

/-! ### Atomic file writer -/

/-- The six fallible steps of `AtomicWriteFile`, in program order. -/
inductive WStep
  | create
  | write
  | sync
  | close
  | chmod
  | rename
  deriving DecidableEq, Repr

/-- Failure oracle: which steps fail on this invocation (execution stops
at the first failing step in program order). -/
structure Fault where
  createFails : Bool
  writeFails : Bool
  syncFails : Bool
  closeFails : Bool
  chmodFails : Bool
  renameFails : Bool
  deriving DecidableEq, Repr

/-- Observable filesystem state for one destination path and its unique
temporary file: the destination content (`none` = absent), whether the
temporary file still exists, its content, and the permission bits set on
it (if `Chmod` ran). -/
structure FS where
  dest : Option Str
  tmpExists : Bool
  tmpContent : Str
  tmpPerm : Option Nat
  deriving DecidableEq, Repr

/-- Is an `Except` a success? -/
def exceptIsOk {ε α : Type} : Except ε α → Bool
  | .ok _ => true
  | .error _ => false

/-- Model of `filefmt.AtomicWriteFile`. The Go function registers a
deferred cleanup that closes and removes the temporary file only while
the `tmp` handle variable is non-nil; the code sets `tmp = nil`
immediately after a successful `Close`, before `Chmod` and `Rename`.
Consequently the cleanup runs for failures of `Write`, `Sync` and
`Close`, but not for failures of `Chmod` or `Rename`, where the
temporary file is left behind. `Rename` is atomic: on success the
destination holds exactly the new bytes, on failure it is untouched. -/
def atomicWriteFile (f : Fault) (dest0 : Option Str) (data : Str) (perm : Nat) :
    Except Str Unit × FS :=
  if f.createFails then
    (.error (str "failed to create temp file"), ⟨dest0, false, [], none⟩)
  else if f.writeFails then
    (.error (str "failed to write to temp file"), ⟨dest0, false, [], none⟩)
  else if f.syncFails then
    (.error (str "failed to sync temp file"), ⟨dest0, false, [], none⟩)
  else if f.closeFails then
    (.error (str "failed to close temp file"), ⟨dest0, false, [], none⟩)
  else if f.chmodFails then
    (.error (str "failed to set file permissions"), ⟨dest0, true, data, none⟩)
  else if f.renameFails then
    (.error (str "failed to rename temp file"), ⟨dest0, true, data, some perm⟩)
  else
    (.ok (), ⟨some data, false, [], none⟩)

/-- First failing step in program order, if any. -/
def firstFail (f : Fault) : Option WStep :=
  if f.createFails then some .create
  else if f.writeFails then some .write
  else if f.syncFails then some .sync
  else if f.closeFails then some .close
  else if f.chmodFails then some .chmod
  else if f.renameFails then some .rename
  else none

/-- C2: the claim fails on the code: when `Chmod` fails (after the
handle was set to nil), the call returns an error but the temporary file
is NOT removed — it remains in the directory. -/
theorem c2_counterexample :
    exceptIsOk (atomicWriteFile ⟨false, false, false, false, true, false⟩
      (some (str "old")) (str "new") 420).1 = false ∧
    (atomicWriteFile ⟨false, false, false, false, true, false⟩
      (some (str "old")) (str "new") 420).2.tmpExists = true := by
  exact ⟨by decide, by decide⟩

/-- C2 (amended): an error is returned exactly when some step fails, and
the temporary file survives the call exactly when the first failing step
is `Chmod` or `Rename`; failures at creation, writing, syncing or closing
leave no temporary file behind (creation failure never produces one, and
the deferred cleanup removes it for write/sync/close failures), and the
destination is untouched on every error. -/
theorem c2_cleanup (f : Fault) (d : Option Str) (b : Str) (p : Nat) :
    (exceptIsOk (atomicWriteFile f d b p).1 = false ↔ firstFail f ≠ none) ∧
    ((atomicWriteFile f d b p).2.tmpExists = true ↔
      (firstFail f = some .chmod ∨ firstFail f = some .rename)) ∧
    (exceptIsOk (atomicWriteFile f d b p).1 = false →
      (atomicWriteFile f d b p).2.dest = d) := by
  obtain ⟨c, w, s, cl, ch, r⟩ := f
  cases c <;> cases w <;> cases s <;> cases cl <;> cases ch <;> cases r <;>
    simp [atomicWriteFile, firstFail, exceptIsOk]

/-- C2 witness: the cleanup characterization applied to the fault that
fails only at `Write`: an error is reported, no temporary file remains,
and the destination is untouched. -/
theorem c2_cleanup_witness :
    (atomicWriteFile ⟨false, true, false, false, false, false⟩
      (some (str "old")) (str "new") 420).2.tmpExists = false ∧
    (atomicWriteFile ⟨false, true, false, false, false, false⟩
      (some (str "old")) (str "new") 420).2.dest = some (str "old") := by
  have h := c2_cleanup ⟨false, true, false, false, false, false⟩
    (some (str "old")) (str "new") 420
  refine ⟨?_, h.2.2 (by decide)⟩
  have h2 := h.2.1
  revert h2
  decide

/-- C3: `AtomicWriteFile` is all-or-nothing for the destination: after a
successful call the destination holds exactly the new bytes, and after
any failing call the destination is exactly what it was before — its
original content, or absent if it did not exist. -/
theorem c3_all_or_nothing (f : Fault) (d : Option Str) (b : Str) (p : Nat) :
    (atomicWriteFile f d b p).2.dest
      = (if exceptIsOk (atomicWriteFile f d b p).1 then some b else d) := by
  obtain ⟨c, w, s, cl, ch, r⟩ := f
  cases c <;> cases w <;> cases s <;> cases cl <;> cases ch <;> cases r <;>
    simp [atomicWriteFile, exceptIsOk]

/-! ### CLI layer: error kinds, exit codes, and identifier validation -/

/-- Model of `model.ErrorType` (an integer exit status). -/
abbrev ErrorType := Nat

/-- `model.ExitSuccess`. -/
def ExitSuccess : ErrorType := 0

/-- `model.ExitUsage`. -/
def ExitUsage : ErrorType := 1

/-- `model.ExitEnv`. -/
def ExitEnv : ErrorType := 2

/-- `model.ExitIO` (suffix renamed for the embedding). -/
def ExitIOCode : ErrorType := 3

/-- Model of `model.ExitError`. -/
structure ExitError where
  code : ErrorType
  message : Str
  deriving DecidableEq, Repr

/-- Errors surfacing from a command handler: a typed `ExitError`, or any
other Go error value (carrying only its message). -/
inductive GoError
  | exit (e : ExitError)
  | other (msg : Str)
  deriving DecidableEq, Repr

/-- Model of `main`: run the root command; on success the process exits
with status 0; an `ExitError` exits with its code; any other error is
wrapped with code `ExitIO`. -/
def mainExitCode : Except GoError Unit → Nat
  | .ok _ => 0
  | .error (.exit e) => e.code
  | .error (.other _) => ExitIOCode

/-- Model of `model.IsNumeric`: the regular expression
`^[0-9]+$` — a nonempty string of ASCII decimal digits. -/
def isNumeric (s : Str) : Bool :=
  !s.isEmpty && s.all (fun c => '0' ≤ c && c ≤ '9')

/-- Model of `model.IssueData`. -/
structure IssueData where
  title : Str
  body : Str
  deriving DecidableEq, Repr

/-- File and external-client operations a handler can perform, in the
order it performs them. -/
inductive CmdAction
  | mkdirIssues
  | ghViewIssue (id : Str)
  | atomicWrite (path : Str)
  | readFile (path : Str)
  | createTempBody
  | ghEditIssue (id : Str)
  | statFile (path : Str)
  | mkdirTmp
  | gitDiff
  | ghCloseIssue (id : Str)
  | ghReopenIssue (id : Str)
  deriving DecidableEq, Repr

/-- `filepath.Join(issuesDir, n + ".md")`. -/
def issuePath (n : Str) : Str := str "issues/" ++ n ++ str ".md"

/-- Outcome oracles for `runPull`. -/
structure PullEnv where
  mkdir : Except Str Unit
  view : Except Str IssueData
  write : Str → Except Str Unit

/-- Model of `runPull`: validate the identifier, create the issues
directory, fetch the issue, encode it and write it atomically. -/
def runPull (env : PullEnv) (arg : Str) : Except GoError Unit × List CmdAction :=
  if !isNumeric arg then
    (.error (.exit ⟨ExitUsage, str "Usage: ghi pull <issue-number>"⟩), [])
  else
    match env.mkdir with
    | .error _ =>
      (.error (.exit ⟨ExitIOCode, str "failed to create issues directory"⟩), [.mkdirIssues])
    | .ok _ =>
      match env.view with
      | .error _ =>
        (.error (.exit ⟨ExitEnv, []⟩), [.mkdirIssues, .ghViewIssue arg])
      | .ok issue =>
        match env.write (encodeMarkdown ⟨issue.title⟩ issue.body) with
        | .error _ =>
          (.error (.exit ⟨ExitIOCode, str "failed to write file"⟩),
            [.mkdirIssues, .ghViewIssue arg, .atomicWrite (issuePath arg)])
        | .ok _ =>
          (.ok (), [.mkdirIssues, .ghViewIssue arg, .atomicWrite (issuePath arg)])

/-- Outcome oracles for `runPush`. -/
structure PushEnv where
  read : Except Str Str
  createTemp : Str → Except Str Str
  edit : Except Str Unit

/-- Model of `runPush`: validate the identifier, read the local file,
decode it, write the body to a temp file, and edit the remote issue. -/
def runPush (env : PushEnv) (arg : Str) : Except GoError Unit × List CmdAction :=
  if !isNumeric arg then
    (.error (.exit ⟨ExitUsage, str "Usage: ghi push <issue-number>"⟩), [])
  else
    match env.read with
    | .error _ =>
      (.error (.exit ⟨ExitIOCode, str "failed to read file"⟩), [.readFile (issuePath arg)])
    | .ok raw =>
      match decodeMarkdown raw with
      | .error _ =>
        (.error (.exit ⟨ExitIOCode, str "failed to parse markdown"⟩),
          [.readFile (issuePath arg)])
      | .ok (_, body) =>
        match env.createTemp body with
        | .error _ =>
          (.error (.exit ⟨ExitIOCode, str "failed to create temp file"⟩),
            [.readFile (issuePath arg), .createTempBody])
        | .ok _ =>
          match env.edit with
          | .error _ =>
            (.error (.exit ⟨ExitEnv, []⟩),
              [.readFile (issuePath arg), .createTempBody, .ghEditIssue arg])
          | .ok _ =>
            (.ok (), [.readFile (issuePath arg), .createTempBody, .ghEditIssue arg])

/-- Outcome of `runDiff`: success, a raw `os.Exit` with a status, or an
error propagated to `main`. -/
inductive DiffOutcome
  | success
  | exitWith (n : Nat)
  | failure (e : GoError)
  deriving DecidableEq, Repr

/-- Outcome oracles for `runDiff`. -/
structure DiffEnv where
  stat : Except Str Unit
  view : Except Str IssueData
  mkdirTmp : Except Str Unit
  writeTemp : Str → Except Str Unit
  gitDiff : Except Str Nat

/-- Model of `runDiff`: validate the identifier, require the local file,
fetch the remote issue, write its encoding to a temp file, run the
external diff, and map its exit status (0 no differences, 1 differences
— `os.Exit(1)` —, otherwise an environment error). -/
def runDiff (env : DiffEnv) (arg : Str) : DiffOutcome × List CmdAction :=
  if !isNumeric arg then
    (.failure (.exit ⟨ExitUsage,
      str "Usage: ghi diff <issue-number> [--] [EXTRA_GIT_DIFF_ARGS...]"⟩), [])
  else
    match env.stat with
    | .error _ =>
      (.failure (.exit ⟨ExitIOCode, str "failed to check local file"⟩),
        [.statFile (issuePath arg)])
    | .ok _ =>
      match env.view with
      | .error _ =>
        (.failure (.exit ⟨ExitEnv, []⟩), [.statFile (issuePath arg), .ghViewIssue arg])
      | .ok issue =>
        match env.mkdirTmp with
        | .error _ =>
          (.failure (.exit ⟨ExitIOCode, str "failed to create temp directory"⟩),
            [.statFile (issuePath arg), .ghViewIssue arg, .mkdirTmp])
        | .ok _ =>
          match env.writeTemp (encodeMarkdown ⟨issue.title⟩ issue.body) with
          | .error _ =>
            (.failure (.exit ⟨ExitIOCode, str "failed to write temp file"⟩),
              [.statFile (issuePath arg), .ghViewIssue arg, .mkdirTmp, .createTempBody])
          | .ok _ =>
            match env.gitDiff with
            | .error _ =>
              (.failure (.exit ⟨ExitEnv, []⟩),
                [.statFile (issuePath arg), .ghViewIssue arg, .mkdirTmp, .createTempBody,
                  .gitDiff])
            | .ok 0 =>
              (.success,
                [.statFile (issuePath arg), .ghViewIssue arg, .mkdirTmp, .createTempBody,
                  .gitDiff])
            | .ok 1 =>
              (.exitWith 1,
                [.statFile (issuePath arg), .ghViewIssue arg, .mkdirTmp, .createTempBody,
                  .gitDiff])
            | .ok (_ + 2) =>
              (.failure (.exit ⟨ExitEnv, str "git diff failed"⟩),
                [.statFile (issuePath arg), .ghViewIssue arg, .mkdirTmp, .createTempBody,
                  .gitDiff])

/-- Model of `runClose`. -/
def runClose (close : Except Str Unit) (arg : Str) : Except GoError Unit × List CmdAction :=
  if !isNumeric arg then
    (.error (.exit ⟨ExitUsage, str "Usage: ghi close <issue-number>"⟩), [])
  else
    match close with
    | .error _ => (.error (.exit ⟨ExitEnv, []⟩), [.ghCloseIssue arg])
    | .ok _ => (.ok (), [.ghCloseIssue arg])

/-- Model of `runReopen`. -/
def runReopen (reopen : Except Str Unit) (arg : Str) : Except GoError Unit × List CmdAction :=
  if !isNumeric arg then
    (.error (.exit ⟨ExitUsage, str "Usage: ghi reopen <issue-number>"⟩), [])
  else
    match reopen with
    | .error _ => (.error (.exit ⟨ExitEnv, []⟩), [.ghReopenIssue arg])
    | .ok _ => (.ok (), [.ghReopenIssue arg])

/-- C8: for every identifier-taking subcommand (pull, push, diff, close,
reopen), a non-numeric identifier makes the handler fail with a Usage
error while performing no file or external-client action, and the error
kinds map to the distinct exit statuses: success 0, usage 1, environment
2, IO/parse 3 (non-`ExitError` errors also exit 3). -/
theorem c8_exit_codes (arg : Str) (h : isNumeric arg = false)
    (ep : PullEnv) (es : PushEnv) (ed : DiffEnv) (ec er : Except Str Unit)
    (m1 m2 m3 m4 : Str) :
    runPull ep arg = (.error (.exit ⟨ExitUsage, str "Usage: ghi pull <issue-number>"⟩), []) ∧
    runPush es arg = (.error (.exit ⟨ExitUsage, str "Usage: ghi push <issue-number>"⟩), []) ∧
    runDiff ed arg = (.failure (.exit ⟨ExitUsage,
      str "Usage: ghi diff <issue-number> [--] [EXTRA_GIT_DIFF_ARGS...]"⟩), []) ∧
    runClose ec arg = (.error (.exit ⟨ExitUsage, str "Usage: ghi close <issue-number>"⟩), []) ∧
    runReopen er arg = (.error (.exit ⟨ExitUsage, str "Usage: ghi reopen <issue-number>"⟩), []) ∧
    mainExitCode (.ok ()) = ExitSuccess ∧
    mainExitCode (.error (.exit ⟨ExitUsage, m1⟩)) = 1 ∧
    mainExitCode (.error (.exit ⟨ExitEnv, m2⟩)) = 2 ∧
    mainExitCode (.error (.exit ⟨ExitIOCode, m3⟩)) = 3 ∧
    mainExitCode (.error (.other m4)) = 3 ∧
    ExitSuccess = 0 ∧ ExitUsage = 1 ∧ ExitEnv = 2 ∧ ExitIOCode = 3 := by
  refine ⟨?_, ?_, ?_, ?_, ?_, rfl, rfl, rfl, rfl, rfl, rfl, rfl, rfl, rfl⟩ <;>
    simp [runPull, runPush, runDiff, runClose, runReopen, h]

/-- C8 witness: the characterization applied to the non-numeric
identifier `12a` with concrete oracles. -/
theorem c8_exit_codes_witness :
    runClose (.ok ()) (str "12a")
      = (.error (.exit ⟨ExitUsage, str "Usage: ghi close <issue-number>"⟩), []) ∧
    mainExitCode (.error (.exit ⟨ExitUsage, str "u"⟩)) = 1 := by
  have h := c8_exit_codes (str "12a") (by decide)
    ⟨.ok (), .error (str "e"), fun _ => .ok ()⟩
    ⟨.error (str "e"), fun _ => .ok (str "t"), .ok ()⟩
    ⟨.ok (), .error (str "e"), .ok (), fun _ => .ok (), .ok 0⟩
    (.ok ()) (.ok ()) (str "u") (str "v") (str "w") (str "x")
  exact ⟨h.2.2.2.1, h.2.2.2.2.2.2.1⟩

/-! ### External-client argument construction -/

/-- Model of the argument list built by `gh.EditIssue`: base arguments,
the `--title` flag only when the title is nonempty and does not trim to
empty, then the `--body-file` argument. -/
def editIssueArgs (issueNumber title bodyFile : Str) : List Str :=
  let args := [str "issue", str "edit", issueNumber]
  let args := if title ≠ [] ∧ trimSpace title ≠ [] then
    args ++ [str "--title", title] else args
  args ++ [str "--body-file", bodyFile]

/-- C10: `EditIssue` passes a `--title` argument exactly when the title is
nonempty after trimming whitespace; an empty or whitespace-only title
yields a body-only update with no title flag. -/
theorem c10_edit_issue_title (n t b : Str) :
    editIssueArgs n t b
      = (if trimSpace t = [] then
          [str "issue", str "edit", n, str "--body-file", b]
        else
          [str "issue", str "edit", n, str "--title", t, str "--body-file", b]) := by
  by_cases h : trimSpace t = []
  · have hcond : ¬(t ≠ [] ∧ trimSpace t ≠ []) := by
      intro ⟨_, h2⟩
      exact h2 h
    simp [editIssueArgs, hcond, h]
  · have ht : t ≠ [] := by
      intro hnil
      rw [hnil] at h
      exact h trimSpace_nil
    simp [editIssueArgs, ht, h]

